import Mathlib

/-!
Verification development for the art-by-numbers pipeline.

The Python sources embedded here (shallowly, over `ℚ` coordinates and
colors) are:
- `clustering/strip_removal.py` : `find_closest_color`, `remove_strips`;
- `contouring/find_contours.py` : `get_mask_contours` (the filtering part
  after the external `cv2.findContours` call), `find_shell_holes`;
- `contouring/pruning.py`       : `remove_small_contours`;
- `labelling/label_placement.py`: the second component returned by
  `find_visual_center`;
- `paint_by_numbers/process.py` : `PaintByNumbers.find_shells_and_holes`.

External libraries (numpy, cv2, shapely) are not re-implemented: rasters
become lists of rows of color triples, the contours and hierarchy produced
by `cv2.findContours` are taken as inputs, and `cv2.contourArea` and
shapely's `Polygon.area` are the shoelace area, which is their documented
exact semantics on the rational inputs used here.
-/

/-- An RGB color, one raster pixel value (`image[i, j, :]` in the source). -/
abbrev Color : Type := ℚ × ℚ × ℚ

/-- A raster: a list of rows of pixels (numpy array of shape `(h, w, 3)`). -/
abbrev Image : Type := List (List Color)

/-- The color-labels dictionary of `strip_removal.py`, as an association
list in dict insertion order: pairs of an integer key and its RGB value. -/
abbrev ColorLabels : Type := List (ℕ × Color)

/-- A distance matrix, as `list[list]` in the source. -/
abbrev DistMatrix : Type := List (List ℚ)

/-- `image[i, j, :]`: the pixel of `img` at row `i`, column `j` (a default
of black stands in for numpy's out-of-bounds error; every use below is
guarded by bounds). -/
def pixelAt (img : Image) (i j : ℕ) : Color :=
  (img.getD i []).getD j (0, 0, 0)

/-- `image.shape[1]`: the common row width of a rectangular raster. -/
def imgWidth (img : Image) : ℕ :=
  (img.getD 0 []).length

/-- Embedding of `find_closest_color` (strip_removal.py lines 39-59).
The Python loop starts with `closest_color_index = 0`, skips every entry
with `distance == 0`, and moves to index `i` only when
`distance < distance_matrix[color_key][closest_color_index]`. -/
def find_closest_color (color_key : ℕ) (distance_matrix : DistMatrix) : ℕ :=
  let row := distance_matrix.getD color_key []
  (row.enum).foldl
    (fun closest p =>
      if p.2 = 0 then closest
      else if p.2 < row.getD closest 0 then p.1 else closest)
    0

/-- The inner key-search of `remove_strips`: `current_color_key = 0`, then
the first `(key, value)` of the dict with `value == pixel` wins (`break`). -/
def findColorKey (cl : ColorLabels) (p : Color) : ℕ :=
  match cl.find? (fun kv => kv.2 = p) with
  | some kv => kv.1
  | none => 0

/-- Dict lookup `color_labels[k]`; when the key is absent (a `KeyError` in
Python) the pixel is left as it was. -/
def lookupColor (cl : ColorLabels) (k : ℕ) (dflt : Color) : Color :=
  match cl.find? (fun kv => kv.1 = k) with
  | some kv => kv.2
  | none => dflt

/-- The four 4-connected neighbor values read by `remove_strips`:
`image[i-1, j]`, `image[i+1, j]`, `image[i, j-1]`, `image[i, j+1]`. -/
def neighborsAt (img : Image) (i j : ℕ) : List Color :=
  [pixelAt img (i - 1) j, pixelAt img (i + 1) j,
   pixelAt img i (j - 1), pixelAt img i (j + 1)]

/-- `num_of_neighbours`: how many 4-connected neighbors equal the pixel. -/
def sameNeighborCount (img : Image) (i j : ℕ) : ℕ :=
  ((neighborsAt img i j).filter (fun n => n = pixelAt img i j)).length

/-- The value `new_image[i, j]` holds after the loops of `remove_strips`
(strip_removal.py lines 76-106).  The loops run `i` over
`range(1, shape0 - 1)` and `j` over `range(1, shape1 - 1)`; outside that
interior the copied original value stays.  Inside, a pixel with `0`
matching neighbors is skipped, a pixel with exactly `1` matching neighbor
is replaced by `color_labels[find_closest_color(key, D)]`, and any other
pixel keeps its value.  All reads are from the original `image`. -/
def stripNewPixel (img : Image) (cl : ColorLabels) (D : DistMatrix)
    (h w i j : ℕ) : Color :=
  if 1 ≤ i ∧ i + 1 < h ∧ 1 ≤ j ∧ j + 1 < w then
    if sameNeighborCount img i j = 0 then pixelAt img i j
    else if sameNeighborCount img i j = 1 then
      lookupColor cl
        (find_closest_color (findColorKey cl (pixelAt img i j)) D)
        (pixelAt img i j)
    else pixelAt img i j
  else pixelAt img i j

/-- Embedding of `remove_strips` (strip_removal.py lines 62-106): the
returned `new_image`, a pixelwise function of the original raster since
every read is from `image` and every write is to the fresh copy
(`h = image.shape[0]`, `w = image.shape[1]`). -/
def remove_strips (img : Image) (cl : ColorLabels) (D : DistMatrix) : Image :=
  (List.range img.length).map fun i =>
    (List.range (imgWidth img)).map fun j =>
      stripNewPixel img cl D img.length (imgWidth img) i j

/-- Models the heap effect of `remove_strips` on the array passed as
`image`: the source's first statement is `new_image = image.copy()` and
every subsequent write targets `new_image`, so after the call the caller's
array still holds its original contents.  First component: the state of
the `image` argument after the call; second component: the return value. -/
def remove_strips_effect (img : Image) (cl : ColorLabels) (D : DistMatrix) :
    Image × Image :=
  (img, remove_strips img cl D)

/-- Squared Euclidean distance between two RGB colors. -/
def sqColorDist (c₁ c₂ : Color) : ℚ :=
  (c₁.1 - c₂.1) * (c₁.1 - c₂.1) + (c₁.2.1 - c₂.2.1) * (c₁.2.1 - c₂.2.1) +
    (c₁.2.2 - c₂.2.2) * (c₁.2.2 - c₂.2.2)

/-- `D` is the distance matrix `create_distance_matrix` builds from the
key-sorted color list `colors`: an `N×N` matrix of nonnegative entries
whose squares are the squared Euclidean color distances (this pins each
entry to the Euclidean norm exactly, without leaving `ℚ`). -/
def IsDistanceMatrixFor (colors : List Color) (D : DistMatrix) : Prop :=
  D.length = colors.length ∧
  ∀ i < colors.length,
    (D.getD i []).length = colors.length ∧
    ∀ j < colors.length,
      0 ≤ (D.getD i []).getD j 0 ∧
      (D.getD i []).getD j 0 * (D.getD i []).getD j 0 =
        sqColorDist (colors.getD i (0, 0, 0)) (colors.getD j (0, 0, 0))

instance (colors : List Color) (D : DistMatrix) :
    Decidable (IsDistanceMatrixFor colors D) := by
  unfold IsDistanceMatrixFor
  infer_instance

/-- A traced contour: a closed polyline of rational 2D points. -/
abbrev Contour : Type := List (ℚ × ℚ)

/-- Twice the signed shoelace area, accumulated edge by edge; the first
argument is the start point, closing the ring at the end. -/
def shoelaceAux (p₀ : ℚ × ℚ) : List (ℚ × ℚ) → ℚ
  | [] => 0
  | [p] => p.1 * p₀.2 - p₀.1 * p.2
  | p :: q :: rest => (p.1 * q.2 - q.1 * p.2) + shoelaceAux p₀ (q :: rest)

/-- `cv2.contourArea` (also shapely's ring area): the absolute shoelace
area of the closed polyline. -/
def contourArea (c : Contour) : ℚ :=
  match c with
  | [] => 0
  | p :: _ => |shoelaceAux p c| / 2

/-- Embedding of `remove_small_contours` (pruning.py lines 5-45): walk
`zip(shells, holes)`; a shell whose own area is `≤ min_area` is skipped
together with its holes; otherwise the shell is kept and each of its holes
is kept exactly when the hole's own area is not `≤ min_area`. -/
def remove_small_contours :
    List Contour → List (List Contour) → ℚ → List Contour × List (List Contour)
  | [], _, _ => ([], [])
  | _ :: _, [], _ => ([], [])
  | s :: ss, hs :: hss, m =>
    let rest := remove_small_contours ss hss m
    if contourArea s ≤ m then rest
    else (s :: rest.1, hs.filter (fun h => ¬ contourArea h ≤ m) :: rest.2)

/-- One row of the `cv2.findContours` hierarchy array: the 4-tuple
(next sibling, previous sibling, first child, parent), `-1` for "none". -/
structure HEntry where
  next : ℤ
  prev : ℤ
  child : ℤ
  parent : ℤ
deriving DecidableEq, Repr

/-- The hierarchy array `hierarchy[0]`, one entry per contour. -/
abbrev Hierarchy : Type := List HEntry

/-- `hierarchy[0, i, 3]`: the parent index of contour `i` (`-1` when the
index is out of range, where Python would raise). -/
def parentAt (hy : Hierarchy) (i : ℕ) : ℤ :=
  (hy.getD i ⟨-1, -1, -1, -1⟩).parent

/-- The inner loop of `find_shell_holes`: scan the contours, numbering
them from `j`, and collect those whose parent index is `i`. -/
def holesFor (hy : Hierarchy) (i : ℤ) : ℕ → List α → List α
  | _, [] => []
  | j, c :: rest =>
    if parentAt hy j = i then c :: holesFor hy i (j + 1) rest
    else holesFor hy i (j + 1) rest

/-- The outer loop of `find_shell_holes`, scanning contours numbered from
`i`: each contour with parent `-1` contributes one `(shell, holes)` pair,
where `holes` is `none` when the collected list is empty (the source sets
`holes = None` in that case). -/
def shellsFrom (cs : List α) (hy : Hierarchy) :
    ℕ → List α → List (α × Option (List α))
  | _, [] => []
  | i, c :: rest =>
    if parentAt hy i = -1 then
      (c,
        if (holesFor hy (i : ℤ) 0 cs).isEmpty then none
        else some (holesFor hy (i : ℤ) 0 cs)) :: shellsFrom cs hy (i + 1) rest
    else shellsFrom cs hy (i + 1) rest

/-- Embedding of `find_shell_holes` (find_contours.py lines 41-74): one
single list of `(shell, holes)` tuples, one per parentless contour. -/
def find_shell_holes (cs : List α) (hy : Hierarchy) :
    List (α × Option (List α)) :=
  shellsFrom cs hy 0 cs

/-- The contours with parent `-1`, counted over the contour list with
numbering starting at `i`. -/
def countRootsFrom (hy : Hierarchy) : ℕ → List α → ℕ
  | _, [] => 0
  | i, _ :: rest =>
    (if parentAt hy i = -1 then 1 else 0) + countRootsFrom hy (i + 1) rest

/-- The number of top-level shells: contours whose hierarchy parent is
"none". -/
def countRoots (cs : List α) (hy : Hierarchy) : ℕ :=
  countRootsFrom hy 0 cs

/-- Python tuple unpacking `a, b = l` of a list into two variables:
succeeds exactly when the list has exactly two elements, otherwise raises
a `ValueError` (`none` here). -/
def unpack2 : List β → Option (β × β)
  | [a, b] => some (a, b)
  | _ => none

/-- Embedding of `PaintByNumbers.find_shells_and_holes` (process.py lines
134-146): `shells, holes = contouring.find_shell_holes(...)` destructures
the single returned list into two variables. -/
def find_shells_and_holes (cs : List α) (hy : Hierarchy) :
    Option ((α × Option (List α)) × (α × Option (List α))) :=
  unpack2 (find_shell_holes cs hy)

/-- Embedding of `get_mask_contours` (find_contours.py lines 17-38) after
the external `cv2.findContours` call, whose output `(contours, hierarchy)`
is taken as input here: when `min_area` is given, the contour list is
filtered to those with `min_area < cv2.contourArea(contour)`; the
hierarchy is returned as produced. -/
def get_mask_contours (contours : List Contour) (hierarchy : Hierarchy)
    (min_area : Option ℚ) : List Contour × Hierarchy :=
  match min_area with
  | none => (contours, hierarchy)
  | some m => (contours.filter (fun c => m < contourArea c), hierarchy)

/-- Shapely's `Polygon.area` on a valid polygon with holes: the shell's
shoelace area minus the holes' shoelace areas (shapely is an external
library; this is its documented exact semantics for such polygons). -/
def polygonArea (shell : Contour) (holes : List Contour) : ℚ :=
  contourArea shell - (holes.map contourArea).sum

/-- The second component of the pair returned by `find_visual_center`
(label_placement.py lines 51-69) on valid geometry: the source computes
`area = polygon.area` and then `return point, area`. -/
def find_visual_center_snd (shell : Contour) (holes : List Contour) : ℚ :=
  polygonArea shell holes

/-! ### Concrete data from the repository's own tests -/

/-- The palette of `test_strip_removal.py`, key-sorted as
`create_distance_matrix` sorts it: keys 0, 1, 2. -/
def stripTestColors : List Color := [(1, 0, 0), (0, 0, 0), (2, 0, 0)]

/-- The distance matrix `create_distance_matrix` produces for
`stripTestColors` (all pairwise Euclidean distances are integers here). -/
def stripTestD : DistMatrix := [[0, 1, 1], [1, 0, 2], [1, 2, 0]]

/-- The color-labels dict of `test_strip_removal.py`, in insertion order. -/
def stripTestCl : ColorLabels :=
  [(1, (0, 0, 0)), (0, (1, 0, 0)), (2, (2, 0, 0))]

/-- The 5×5 input raster of `test_remove_strips` (`test_strip_removal.py`):
a border of color 1, a ring of color 0, a two-pixel strip of color 2. -/
def stripTestImg : Image :=
  [[(0,0,0), (0,0,0), (0,0,0), (0,0,0), (0,0,0)],
   [(0,0,0), (1,0,0), (1,0,0), (1,0,0), (0,0,0)],
   [(0,0,0), (1,0,0), (2,0,0), (2,0,0), (0,0,0)],
   [(0,0,0), (1,0,0), (1,0,0), (1,0,0), (0,0,0)],
   [(0,0,0), (0,0,0), (0,0,0), (0,0,0), (0,0,0)]]

/-- A 3×3 raster of one constant color: no pixel has exactly one
same-color neighbor, so strip removal must leave it untouched. -/
def constImg3 : Image :=
  [[(5,5,5), (5,5,5), (5,5,5)],
   [(5,5,5), (5,5,5), (5,5,5)],
   [(5,5,5), (5,5,5), (5,5,5)]]

/-- The 100×100 shell used by `test_label_placement.py` and (as the shell
of area 10,000) by the pruning scenario. -/
def shell100 : Contour := [(0, 0), (0, 100), (100, 100), (100, 0)]

/-- The hole of `test_label_placement.py`: a 30×60 rectangle, area 1800. -/
def labelTestHole : Contour := [(50, 20), (50, 80), (80, 80), (80, 20)]

/-- A rectangular hole of area 5,000. -/
def holeA : Contour := [(0, 0), (0, 50), (100, 50), (100, 0)]

/-- A rectangular hole of area 4,999. -/
def holeB : Contour := [(0, 0), (0, 1), (4999, 1), (4999, 0)]

/-- The hierarchy of the repository's `test_find_shell_holes`: contours
0, 3, 5 are shells; 1, 2 are holes of 0; 4 is a hole of 3. -/
def testHy6 : Hierarchy :=
  [⟨3, -1, 1, -1⟩, ⟨2, -1, -1, 0⟩, ⟨-1, 1, -1, 0⟩,
   ⟨5, 0, 4, -1⟩, ⟨-1, -1, -1, 3⟩, ⟨-1, 3, -1, -1⟩]

/-- A hierarchy of a single parentless contour with no children. -/
def soloHy : Hierarchy := [⟨-1, -1, -1, -1⟩]

/-- A hierarchy of two parentless contours, no children. -/
def twoRootHy : Hierarchy := [⟨1, -1, -1, -1⟩, ⟨-1, 0, -1, -1⟩]

/-- A hierarchy of one shell (contour 0) with two directly-nested holes
(contours 1 and 2). -/
def oneShellTwoHolesHy : Hierarchy :=
  [⟨-1, -1, 1, -1⟩, ⟨2, -1, -1, 0⟩, ⟨-1, 1, -1, 0⟩]

/-! ### Helper lemmas -/

/-- Evaluating the raster returned by `remove_strips` at an in-range
position gives the per-pixel update function. -/
theorem pixelAt_remove_strips (img : Image) (cl : ColorLabels)
    (D : DistMatrix) {i j : ℕ} (hi : i < img.length)
    (hj : j < imgWidth img) :
    pixelAt (remove_strips img cl D) i j =
      stripNewPixel img cl D img.length (imgWidth img) i j := by
  unfold remove_strips pixelAt
  have h1 : i < ((List.range img.length).map fun i =>
      (List.range (imgWidth img)).map fun j =>
        stripNewPixel img cl D img.length (imgWidth img) i j).length := by
    simpa using hi
  rw [List.getD_eq_getElem _ _ h1]
  simp only [List.getElem_map, List.getElem_range]
  have h2 : j < ((List.range (imgWidth img)).map fun j =>
      stripNewPixel img cl D img.length (imgWidth img) i j).length := by
    simpa using hj
  rw [List.getD_eq_getElem _ _ h2]
  simp only [List.getElem_map, List.getElem_range]

/-- `pixelAt` agrees with list indexing on in-range positions. -/
theorem pixelAt_eq_getElem (img : Image) {i j : ℕ} (hi : i < img.length)
    (hj : j < img[i].length) :
    pixelAt img i j = img[i][j] := by
  unfold pixelAt
  rw [List.getD_eq_getElem _ _ hi, List.getD_eq_getElem _ _ hj]

/-- A pixel whose same-color neighbor count differs from 1 keeps its
value, everywhere. -/
theorem stripNewPixel_of_count_ne_one (img : Image) (cl : ColorLabels)
    (D : DistMatrix) (h w i j : ℕ)
    (hc : sameNeighborCount img i j ≠ 1) :
    stripNewPixel img cl D h w i j = pixelAt img i j := by
  unfold stripNewPixel
  rw [if_neg hc]
  split
  · split
    · rfl
    · rfl
  · rfl

/-- A pixel outside the interior of the raster keeps its value. -/
theorem stripNewPixel_of_not_interior (img : Image) (cl : ColorLabels)
    (D : DistMatrix) (h w i j : ℕ)
    (hni : ¬ (1 ≤ i ∧ i + 1 < h ∧ 1 ≤ j ∧ j + 1 < w)) :
    stripNewPixel img cl D h w i j = pixelAt img i j := by
  unfold stripNewPixel
  rw [if_neg hni]

/-! ### Claim C6 -/

/-- C6: for every input raster, palette and distance matrix, the raster
returned by `remove_strips` has the input's height, and it agrees with the
input on every border pixel (first or last row, first or last column):
border pixels are never rewritten. -/
theorem remove_strips_preserves_border (img : Image) (cl : ColorLabels)
    (D : DistMatrix) :
    (remove_strips img cl D).length = img.length ∧
    ∀ i j, i < img.length → j < imgWidth img →
      (i = 0 ∨ i + 1 = img.length ∨ j = 0 ∨ j + 1 = imgWidth img) →
      pixelAt (remove_strips img cl D) i j = pixelAt img i j := by
  constructor
  · simp [remove_strips]
  · intro i j hi hj hb
    rw [pixelAt_remove_strips img cl D hi hj]
    apply stripNewPixel_of_not_interior
    rintro ⟨h1, h2, h3, h4⟩
    rcases hb with h | h | h | h <;> omega

/-- Witness for C6: on the repository's own 5×5 test raster (whose
interior does change), the top-left border pixel is untouched. -/
theorem remove_strips_preserves_border_witness :
    (0 : ℕ) < stripTestImg.length ∧ (0 : ℕ) < imgWidth stripTestImg ∧
    pixelAt (remove_strips stripTestImg stripTestCl stripTestD) 0 0 =
      pixelAt stripTestImg 0 0 :=
  ⟨by decide, by decide,
    (remove_strips_preserves_border stripTestImg stripTestCl stripTestD).2
      0 0 (by decide) (by decide) (Or.inl rfl)⟩

/-! ### Claim C7 -/

/-- C7: a pixel with zero or at least two same-color neighbors is left
unchanged; consequently, a rectangular raster in which no interior pixel
has exactly one same-color 4-connected neighbor is a fixed point of
`remove_strips` (a further pass changes nothing). -/
theorem remove_strips_fixed_point (img : Image) (cl : ColorLabels)
    (D : DistMatrix) :
    (∀ i j, i < img.length → j < imgWidth img →
      sameNeighborCount img i j ≠ 1 →
      pixelAt (remove_strips img cl D) i j = pixelAt img i j) ∧
    ((∀ r ∈ img, r.length = imgWidth img) →
      (∀ i < img.length, ∀ j < imgWidth img,
        ¬ (1 ≤ i ∧ i + 1 < img.length ∧ 1 ≤ j ∧ j + 1 < imgWidth img ∧
          sameNeighborCount img i j = 1)) →
      remove_strips img cl D = img) := by
  constructor
  · intro i j hi hj hc
    rw [pixelAt_remove_strips img cl D hi hj]
    exact stripNewPixel_of_count_ne_one img cl D _ _ i j hc
  · intro hrect hno
    apply List.ext_getElem
    · simp [remove_strips]
    · intro i hi hi2
      have hi2l : i < img.length := hi2
      simp only [remove_strips, List.getElem_map, List.getElem_range]
      apply List.ext_getElem
      · simp [hrect img[i] (List.getElem_mem hi2l)]
      · intro j hj hj2
        simp only [List.getElem_map, List.getElem_range]
        have hjw : j < imgWidth img := by simpa using hj
        have hpx : pixelAt img i j = img[i][j] :=
          pixelAt_eq_getElem img hi2l hj2
        by_cases hint :
            1 ≤ i ∧ i + 1 < img.length ∧ 1 ≤ j ∧ j + 1 < imgWidth img
        · have hc : sameNeighborCount img i j ≠ 1 := fun hcnt =>
            hno i hi2l j hjw
              ⟨hint.1, hint.2.1, hint.2.2.1, hint.2.2.2, hcnt⟩
          rw [stripNewPixel_of_count_ne_one img cl D _ _ i j hc]
          exact hpx
        · rw [stripNewPixel_of_not_interior img cl D _ _ i j hint]
          exact hpx

/-- Witness for C7: a 3×3 constant-color raster satisfies the
hypotheses, and strip removal returns it unchanged. -/
theorem remove_strips_fixed_point_witness :
    (∀ r ∈ constImg3, r.length = imgWidth constImg3) ∧
    remove_strips constImg3 stripTestCl stripTestD = constImg3 :=
  ⟨by decide,
    (remove_strips_fixed_point constImg3 stripTestCl stripTestD).2
      (by decide) (by decide)⟩

/-! ### Claim C5 -/

/-- C5 counterexample: on the repository's own 5×5 test raster, the array
passed as `image` is unchanged after the call (the source copies it),
while the returned raster differs from it — so the input array does not
hold the suppressed raster, refuting the in-place-mutation claim. -/
theorem remove_strips_not_in_place_counterexample :
    (remove_strips_effect stripTestImg stripTestCl stripTestD).1 =
      stripTestImg ∧
    (remove_strips_effect stripTestImg stripTestCl stripTestD).2 ≠
      stripTestImg := by
  exact ⟨rfl, by decide⟩

/-- C5 amended: `remove_strips` does not mutate the raster passed as
`image`: after the call the caller's array holds its original contents
for every input, and the suppressed raster (which can differ from it, as
on the repository's own test raster) exists only in the return value. -/
theorem remove_strips_not_in_place :
    (∀ (img : Image) (cl : ColorLabels) (D : DistMatrix),
      (remove_strips_effect img cl D).1 = img ∧
      (remove_strips_effect img cl D).2 = remove_strips img cl D) ∧
    (remove_strips_effect stripTestImg stripTestCl stripTestD).1 ≠
      (remove_strips_effect stripTestImg stripTestCl stripTestD).2 := by
  refine ⟨fun img cl D => ⟨rfl, rfl⟩, ?_⟩
  intro h
  exact absurd h.symm (by decide)

/-! ### Claims C4 and C9: region building and its destructuring -/

/-- The inner loop of `find_shell_holes` collects exactly the contours
whose parent index is `i`, in order. -/
theorem holesFor_eq (hy : Hierarchy) (i : ℤ) (j : ℕ) (l : List α) :
    holesFor hy i j l =
      ((List.enumFrom j l).filter (fun q => parentAt hy q.1 = i)).map
        Prod.snd := by
  induction l generalizing j with
  | nil => rfl
  | cons c t ih =>
    simp only [holesFor, List.enumFrom, List.filter]
    by_cases hp : parentAt hy j = i
    · simp [hp, ih]
    · simp [hp, ih]

/-- The outer loop of `find_shell_holes` emits one pair per parentless
contour, in order. -/
theorem shellsFrom_eq (cs : List α) (hy : Hierarchy) (i : ℕ) (l : List α) :
    shellsFrom cs hy i l =
      ((List.enumFrom i l).filter (fun p => parentAt hy p.1 = -1)).map
        (fun p => (p.2,
          if (holesFor hy (p.1 : ℤ) 0 cs).isEmpty then none
          else some (holesFor hy (p.1 : ℤ) 0 cs))) := by
  induction l generalizing i with
  | nil => rfl
  | cons c t ih =>
    simp only [shellsFrom, List.enumFrom, List.filter]
    by_cases hp : parentAt hy i = -1
    · simp [hp, ih]
    · simp [hp, ih]

/-- Each step of the outer loop contributes to the output length exactly
when the scanned contour is parentless. -/
theorem shellsFrom_length (cs : List α) (hy : Hierarchy) (l : List α)
    (k : ℕ) : (shellsFrom cs hy k l).length = countRootsFrom hy k l := by
  induction l generalizing k with
  | nil => rfl
  | cons c t ih =>
    simp only [shellsFrom, countRootsFrom]
    by_cases hp : parentAt hy k = -1
    · simp [hp, ih, Nat.add_comm]
    · simp [hp, ih]

/-- `find_shell_holes` emits one pair per parentless contour. -/
theorem find_shell_holes_length (cs : List α) (hy : Hierarchy) :
    (find_shell_holes cs hy).length = countRoots cs hy :=
  shellsFrom_length cs hy cs 0

/-- Unpacking a list whose length is not 2 into two variables raises. -/
theorem unpack2_eq_none {l : List β} (h : l.length ≠ 2) :
    unpack2 l = none := by
  match l with
  | [] => rfl
  | [_] => rfl
  | [_, _] => exact absurd rfl h
  | _ :: _ :: _ :: _ => rfl

/-- C4 counterexample: on a single parentless contour with no children,
`find_shell_holes` returns the pair `(shell, none)` — the hole list is
null (`None` in the source), not the empty list the claim requires. -/
theorem find_shell_holes_empty_holes_counterexample :
    find_shell_holes [(7 : ℕ)] soloHy = [(7, none)] ∧
    find_shell_holes [(7 : ℕ)] soloHy ≠ [(7, some [])] := by
  exact ⟨by decide, by decide⟩

/-- C4 amended: `find_shell_holes` emits exactly one `(shell, holes)`
pair per contour whose hierarchy parent is none, with the contours whose
parent index equals the shell's index as its holes; one shell with two
directly-nested holes yields exactly one pair whose hole list has length
2; a shell with no children gets `none` (a null hole list), not the empty
list. -/
theorem find_shell_holes_regions (cs : List α) (hy : Hierarchy) :
    find_shell_holes cs hy =
      (cs.enum.filter (fun p => parentAt hy p.1 = -1)).map
        (fun p => (p.2,
          if ((cs.enum.filter
              (fun q => parentAt hy q.1 = (p.1 : ℤ))).map Prod.snd).isEmpty
          then none
          else some ((cs.enum.filter
              (fun q => parentAt hy q.1 = (p.1 : ℤ))).map Prod.snd))) ∧
    find_shell_holes [(10 : ℕ), 20, 30] oneShellTwoHolesHy =
      [(10, some [20, 30])] ∧
    find_shell_holes [(7 : ℕ)] soloHy = [(7, none)] := by
  refine ⟨?_, by decide, by decide⟩
  unfold find_shell_holes
  rw [shellsFrom_eq]
  simp only [holesFor_eq, List.enum]

/-- C9: `find_shell_holes` returns one single list of pairs, so the
destructuring `shells, holes = find_shell_holes(...)` in
`PaintByNumbers.find_shells_and_holes` raises an unpacking error whenever
the number of top-level shells differs from 2, and when it is exactly 2
it binds the first whole `(shell, holes)` pair to `shells` and the second
to `holes`, silently mispairing the data. -/
theorem find_shells_and_holes_unpack (cs : List α) (hy : Hierarchy) :
    (countRoots cs hy ≠ 2 → find_shells_and_holes cs hy = none) ∧
    (countRoots cs hy = 2 →
      ∃ p q, find_shell_holes cs hy = [p, q] ∧
        find_shells_and_holes cs hy = some (p, q)) := by
  constructor
  · intro h
    apply unpack2_eq_none
    rw [find_shell_holes_length]
    exact h
  · intro h
    have hl : (find_shell_holes cs hy).length = 2 := by
      rw [find_shell_holes_length]
      exact h
    unfold find_shells_and_holes
    match hfs : find_shell_holes cs hy, hl with
    | [p, q], _ => exact ⟨p, q, rfl, rfl⟩

/-- Witness for C9: the repository's own `test_find_shell_holes` data (3
top-level shells) makes the destructuring raise, while a 2-shell
hierarchy makes it bind the two pairs to the two variables. -/
theorem find_shells_and_holes_unpack_witness :
    (countRoots [(0 : ℕ), 1, 2, 3, 4, 5] testHy6 ≠ 2 ∧
      find_shells_and_holes [(0 : ℕ), 1, 2, 3, 4, 5] testHy6 = none) ∧
    (countRoots [(0 : ℕ), 1] twoRootHy = 2 ∧
      ∃ p q, find_shell_holes [(0 : ℕ), 1] twoRootHy = [p, q] ∧
        find_shells_and_holes [(0 : ℕ), 1] twoRootHy = some (p, q)) :=
  ⟨⟨by decide,
    (find_shells_and_holes_unpack [(0 : ℕ), 1, 2, 3, 4, 5] testHy6).1
      (by decide)⟩,
   ⟨by decide,
    (find_shells_and_holes_unpack [(0 : ℕ), 1] twoRootHy).2 (by decide)⟩⟩

/-! ### Claims C2, C10 and C1: areas -/

/-- The 100×100 shell has area 10,000. -/
theorem contourArea_shell100 : contourArea shell100 = 10000 := by
  norm_num [contourArea, shell100, shoelaceAux]

/-- The label-placement test hole has area 1,800. -/
theorem contourArea_labelTestHole : contourArea labelTestHole = 1800 := by
  norm_num [contourArea, labelTestHole, shoelaceAux]

/-- The first pruning hole has area 5,000. -/
theorem contourArea_holeA : contourArea holeA = 5000 := by
  norm_num [contourArea, holeA, shoelaceAux]

/-- The second pruning hole has area 4,999. -/
theorem contourArea_holeB : contourArea holeB = 4999 := by
  norm_num [contourArea, holeB, shoelaceAux]

/-- Evaluation of the pruner on the 10,000-area shell with the two holes
of total area 9,999: when none of the three contours' own areas are below
the threshold, everything is kept. -/
theorem remove_small_keeps (m : ℚ) (h1 : ¬ contourArea shell100 ≤ m)
    (h2 : ¬ contourArea holeA ≤ m) (h3 : ¬ contourArea holeB ≤ m) :
    remove_small_contours [shell100] [[holeA, holeB]] m =
      ([shell100], [[holeA, holeB]]) := by
  simp only [remove_small_contours]
  rw [if_neg h1]
  simp [List.filter_cons, not_le.mp h2, not_le.mp h3]

/-- C2 counterexample: the region whose shell has area 10,000 and whose
two holes total area 9,999 has net area 1 ≤ min_area = 1, so policy A
would drop it, yet `remove_small_contours` keeps the region in full. -/
theorem remove_small_contours_policyA_counterexample :
    contourArea shell100 - (contourArea holeA + contourArea holeB) ≤ 1 ∧
    remove_small_contours [shell100] [[holeA, holeB]] 1 =
      ([shell100], [[holeA, holeB]]) ∧
    remove_small_contours [shell100] [[holeA, holeB]] 1 ≠ ([], []) := by
  refine ⟨?_, ?_, ?_⟩
  · rw [contourArea_shell100, contourArea_holeA, contourArea_holeB]
    norm_num
  · exact remove_small_keeps 1 (by rw [contourArea_shell100]; norm_num)
      (by rw [contourArea_holeA]; norm_num)
      (by rw [contourArea_holeB]; norm_num)
  · rw [remove_small_keeps 1 (by rw [contourArea_shell100]; norm_num)
      (by rw [contourArea_holeA]; norm_num)
      (by rw [contourArea_holeB]; norm_num)]
    simp

/-- C2 amended: the pruner is per-contour (policy B with a shell-size
test): walking `zip(shells, holes)`, a region is dropped exactly when its
shell's own area is `≤ min_area` (holes are ignored for that test), and
each hole is dropped individually exactly when its own area is
`≤ min_area`; the 10,000-area shell with holes totaling 9,999 is kept in
full both at `min_area = 0` and `min_area = 1`. -/
theorem remove_small_contours_per_contour (ss : List Contour)
    (hs : List (List Contour)) (m : ℚ) :
    remove_small_contours ss hs m =
      (((ss.zip hs).filter (fun p => ¬ contourArea p.1 ≤ m)).map Prod.fst,
       ((ss.zip hs).filter (fun p => ¬ contourArea p.1 ≤ m)).map
         (fun p => p.2.filter (fun h => ¬ contourArea h ≤ m))) ∧
    remove_small_contours [shell100] [[holeA, holeB]] 0 =
      ([shell100], [[holeA, holeB]]) ∧
    remove_small_contours [shell100] [[holeA, holeB]] 1 =
      ([shell100], [[holeA, holeB]]) := by
  refine ⟨?_,
    remove_small_keeps 0 (by rw [contourArea_shell100]; norm_num)
      (by rw [contourArea_holeA]; norm_num)
      (by rw [contourArea_holeB]; norm_num),
    remove_small_keeps 1 (by rw [contourArea_shell100]; norm_num)
      (by rw [contourArea_holeA]; norm_num)
      (by rw [contourArea_holeB]; norm_num)⟩
  induction ss generalizing hs with
  | nil => cases hs <;> rfl
  | cons s t ih =>
    cases hs with
    | nil => rfl
    | cons h hss =>
      simp only [remove_small_contours, List.zip_cons_cons, List.filter_cons]
      by_cases hc : contourArea s ≤ m
      · rw [if_pos hc, ih]
        simp [hc]
      · rw [if_neg hc, ih]
        simp [hc]

/-- A list filtered by a predicate that some member falsifies gets
strictly shorter. -/
theorem filter_length_lt_of_mem {l : List γ} {p : γ → Bool} {x : γ}
    (hx : x ∈ l) (hpx : p x = false) :
    (l.filter p).length < l.length := by
  induction l with
  | nil => cases hx
  | cons a t ih =>
    rw [List.filter_cons]
    rcases List.mem_cons.mp hx with rfl | hx2
    · rw [hpx]
      simpa using Nat.lt_succ_of_le (List.length_filter_le p t)
    · by_cases hpa : p a
      · rw [if_pos hpa]
        simpa using ih hx2
      · rw [if_neg hpa]
        exact Nat.lt_succ_of_lt (ih hx2)

/-- C10: with a `min_area` threshold, `get_mask_contours` filters only
the contour list (keeping contours of area strictly greater than
`min_area`) and returns the hierarchy exactly as produced, so whenever
the hierarchy has one entry per original contour and some contour is
dropped, the returned hierarchy is longer than the returned contour
list and its indices refer to the unfiltered list. -/
theorem get_mask_contours_stale_hierarchy (cs : List Contour)
    (hy : Hierarchy) (m : ℚ) :
    (get_mask_contours cs hy (some m)).1 =
      cs.filter (fun c => m < contourArea c) ∧
    (get_mask_contours cs hy (some m)).2 = hy ∧
    (hy.length = cs.length → (∃ c ∈ cs, contourArea c ≤ m) →
      (get_mask_contours cs hy (some m)).1.length <
        (get_mask_contours cs hy (some m)).2.length) := by
  refine ⟨rfl, rfl, ?_⟩
  intro hlen hex
  obtain ⟨c, hc, hca⟩ := hex
  show (cs.filter (fun c => m < contourArea c)).length < hy.length
  rw [hlen]
  exact filter_length_lt_of_mem hc (by simpa using not_lt.mpr hca)

/-- Witness for C10: a one-contour list whose contour has area 0 with a
one-entry hierarchy and `min_area = 1`: the contour is dropped but the
hierarchy entry stays. -/
theorem get_mask_contours_stale_hierarchy_witness :
    soloHy.length = [([] : Contour)].length ∧
    (∃ c ∈ [([] : Contour)], contourArea c ≤ 1) ∧
    (get_mask_contours [([] : Contour)] soloHy (some 1)).1.length <
      (get_mask_contours [([] : Contour)] soloHy (some 1)).2.length :=
  ⟨rfl, by decide,
    (get_mask_contours_stale_hierarchy [([] : Contour)] soloHy 1).2.2
      rfl (by decide)⟩

/-! ### Claims C3 and C1: the two code bugs -/

/-- C3: `find_closest_color` initializes its running best at index 0,
whose self-distance `D[0][0] = 0` can never be beaten by the strict `<`
test, so for `color_key = 0` it returns 0 — the queried color itself —
instead of the nearest other index; shown on the distance matrix built
from the repository's own 3-color test palette (where the nearest other
color to color 0 is index 1, at distance 1). -/
theorem find_closest_color_returns_self :
    IsDistanceMatrixFor stripTestColors stripTestD ∧
    2 ≤ stripTestColors.length ∧
    find_closest_color 0 stripTestD = 0 := by
  refine ⟨⟨rfl, ?_⟩, by decide, by decide⟩
  intro i hi
  have hi3 : i < 3 := by simpa [stripTestColors] using hi
  refine ⟨?_, ?_⟩
  · interval_cases i <;> rfl
  · intro j hj
    have hj3 : j < 3 := by simpa [stripTestColors] using hj
    interval_cases i <;> interval_cases j <;>
      exact ⟨by norm_num [stripTestD],
        by norm_num [stripTestD, stripTestColors, sqColorDist]⟩

/-- C1: the second component of the pair `find_visual_center` returns is
`polygon.area`, not the clearance: on the repository's own label test
polygon (100×100 shell with a 30×60 hole) it is 8200, the net polygon
area, whereas the clearance asserted by `test_label_placement.py` for the
same input is 25. -/
theorem find_visual_center_snd_is_area :
    find_visual_center_snd shell100 [labelTestHole] = 8200 ∧
    (8200 : ℚ) ≠ 25 := by
  constructor
  · show contourArea shell100 - ([labelTestHole].map contourArea).sum = 8200
    simp only [List.map_cons, List.map_nil, List.sum_cons, List.sum_nil]
    rw [contourArea_shell100, contourArea_labelTestHole]
    norm_num
  · norm_num
